import Mathlib

/-!
Verification of the healthcare bill ledger and reporting engine
(`spreadsheet_manager.py`).

The Python module keeps an in-memory pandas DataFrame of bill records and
provides: loading the backing workbook (`_load_or_create_dataframe`),
appending a record (`add_record`), summarising (`get_summary`), saving with
auxiliary aggregation sheets (`save` / `_write_summary_sheets`), and two
export operations (`export_for_taxes`, `export_hsa_reconciliation`).

The embedding below models the DataFrame as a `List BillRecord`, timestamps
as a `Date` structure ordered lexicographically, and amounts as exact
rationals (the Python code uses floats; the claims under study concern sums
and record selection, not rounding).  The two external parsers the code
calls — `pd.to_datetime` on a date string and Python's `float(...)`
coercion — are passed in as explicit function parameters (`parseDate`,
`floatFn`), since their behaviour is third-party library code: every claim
is proved for an arbitrary choice of these functions.  File I/O is made
explicit: the backing store is an `Option Workbook` value threaded through
`save`, and load-time parsing outcomes are a `FileState`.
-/

/-- A calendar timestamp: year, month, day, plus an intra-day component
(`sec`), ordered lexicographically like `pd.Timestamp`. -/
structure Date where
  year : Int
  month : Nat
  day : Nat
  sec : Nat
deriving DecidableEq, Repr

/-- Lexicographic order on timestamps (the order `sort_values("date")` and
`min`/`max` use). -/
def Date.leB (a b : Date) : Bool :=
  decide (a.year < b.year) ||
    (decide (a.year = b.year) &&
      (decide (a.month < b.month) ||
        (decide (a.month = b.month) &&
          (decide (a.day < b.day) ||
            (decide (a.day = b.day) && decide (a.sec ≤ b.sec))))))

theorem Date.leB_iff (a b : Date) :
    Date.leB a b = true ↔
      (a.year < b.year ∨ (a.year = b.year ∧
        (a.month < b.month ∨ (a.month = b.month ∧
          (a.day < b.day ∨ (a.day = b.day ∧ a.sec ≤ b.sec)))))) := by
  simp [Date.leB]

theorem Date.leB_total (a b : Date) : Date.leB a b = true ∨ Date.leB b a = true := by
  rw [Date.leB_iff, Date.leB_iff]; omega

theorem Date.leB_trans {a b c : Date} (hab : Date.leB a b = true)
    (hbc : Date.leB b c = true) : Date.leB a c = true := by
  rw [Date.leB_iff] at hab hbc ⊢; omega

/-- `str(timestamp)`: render a timestamp as text. -/
def Date.render (d : Date) : String :=
  toString d.year ++ "-" ++ toString d.month ++ "-" ++ toString d.day
    ++ " " ++ toString d.sec

/-- `strftime("%B")`: the English month name. -/
def monthName : Nat → String
  | 1 => "January"
  | 2 => "February"
  | 3 => "March"
  | 4 => "April"
  | 5 => "May"
  | 6 => "June"
  | 7 => "July"
  | 8 => "August"
  | 9 => "September"
  | 10 => "October"
  | 11 => "November"
  | 12 => "December"
  | _ => ""

/-- One row of the `Bills` table: the nine columns of the ledger schema. -/
structure BillRecord where
  date : Date
  provider : String
  amount : ℚ
  category : String
  description : String
  pdf_path : String
  year : Int
  month : Nat
  added_on : Date
deriving DecidableEq, Repr

/-- Caller-supplied fields of `add_record`'s input dictionary.  A `none`
field is an absent key (`record.get` then yields the coded default).  The
`amount` value is kept as raw text to which the `float` coercion
(`floatFn`) is applied. -/
structure RecordInput where
  date : Option String
  provider : Option String
  amount : Option String
  category : Option String
  description : Option String
  pdf_path : Option String
deriving DecidableEq, Repr

/- ### Generic list machinery: insertion sort, key dedup, assoc lookup -/

/-- Insert `x` into `l` in front of the first element not below it. -/
def insertLe (le : α → α → Bool) (x : α) : List α → List α
  | [] => [x]
  | y :: ys => if le x y then x :: y :: ys else y :: insertLe le x ys

/-- Insertion sort by a boolean comparison (models `sort_values`). -/
def sortByLe (le : α → α → Bool) : List α → List α
  | [] => []
  | x :: xs => insertLe le x (sortByLe le xs)

theorem insertLe_perm (le : α → α → Bool) (x : α) (l : List α) :
    (insertLe le x l).Perm (x :: l) := by
  induction l with
  | nil => exact List.Perm.refl _
  | cons y ys ih =>
    by_cases h : le x y
    · simp [insertLe, h]
    · simp only [insertLe, h, if_neg, Bool.not_eq_true]
      exact ((ih.cons y).trans (List.Perm.swap x y ys)).symm.symm

theorem sortByLe_perm (le : α → α → Bool) (l : List α) :
    (sortByLe le l).Perm l := by
  induction l with
  | nil => exact List.Perm.refl _
  | cons x xs ih => exact (insertLe_perm le x (sortByLe le xs)).trans (ih.cons x)

theorem mem_insertLe {le : α → α → Bool} {x y : α} {l : List α}
    (h : y ∈ insertLe le x l) : y = x ∨ y ∈ l :=
  by simpa using (insertLe_perm le x l).mem_iff.mp h

theorem insertLe_pairwise {le : α → α → Bool}
    (htot : ∀ a b, le a b = true ∨ le b a = true)
    (htrans : ∀ a b c, le a b = true → le b c = true → le a c = true)
    {x : α} {l : List α}
    (hl : l.Pairwise (fun a b => le a b = true)) :
    (insertLe le x l).Pairwise (fun a b => le a b = true) := by
  induction l with
  | nil => simp [insertLe]
  | cons y ys ih =>
    rw [List.pairwise_cons] at hl
    obtain ⟨hy, hys⟩ := hl
    by_cases h : le x y
    · simp only [insertLe]
      rw [if_pos h]
      refine List.Pairwise.cons ?_ (List.Pairwise.cons hy hys)
      intro z hz
      rcases List.mem_cons.mp hz with rfl | hz
      · exact h
      · exact htrans x y z h (hy z hz)
    · simp only [insertLe]
      rw [if_neg h]
      refine List.Pairwise.cons ?_ (ih hys)
      intro z hz
      rcases mem_insertLe hz with rfl | hz
      · rcases htot y z with hyz | hzy
        · exact hyz
        · exact (h hzy).elim
      · exact hy z hz

theorem sortByLe_pairwise (le : α → α → Bool)
    (htot : ∀ a b, le a b = true ∨ le b a = true)
    (htrans : ∀ a b c, le a b = true → le b c = true → le a c = true)
    (l : List α) :
    (sortByLe le l).Pairwise (fun a b => le a b = true) := by
  induction l with
  | nil => simp [sortByLe]
  | cons x xs ih => exact insertLe_pairwise htot htrans ih

/-- Keys of a list with duplicates removed, keeping first occurrences
(the distinct group keys of a pandas `groupby`, before key sorting). -/
def dedupKeys [DecidableEq α] (seen : List α) : List α → List α
  | [] => []
  | k :: ks =>
    if k ∈ seen then dedupKeys seen ks
    else k :: dedupKeys (k :: seen) ks

theorem mem_dedupKeys [DecidableEq α] {seen l : List α} {k : α} :
    k ∈ dedupKeys seen l ↔ k ∈ l ∧ k ∉ seen := by
  induction l generalizing seen with
  | nil => simp [dedupKeys]
  | cons a as ih =>
    by_cases h : a ∈ seen
    · rw [show dedupKeys seen (a :: as) = dedupKeys seen as from by
        simp [dedupKeys, h]]
      rw [ih, List.mem_cons]
      by_cases hk : k = a
      · subst hk; tauto
      · tauto
    · rw [show dedupKeys seen (a :: as) = a :: dedupKeys (a :: seen) as from by
        simp [dedupKeys, h]]
      rw [List.mem_cons, ih, List.mem_cons, List.mem_cons]
      by_cases hk : k = a
      · subst hk; tauto
      · tauto

theorem dedupKeys_nodup [DecidableEq α] (seen : List α) (l : List α) :
    (dedupKeys seen l).Nodup := by
  induction l generalizing seen with
  | nil => simp [dedupKeys]
  | cons a as ih =>
    by_cases h : a ∈ seen
    · rw [show dedupKeys seen (a :: as) = dedupKeys seen as from by
        simp [dedupKeys, h]]
      exact ih seen
    · rw [show dedupKeys seen (a :: as) = a :: dedupKeys (a :: seen) as from by
        simp [dedupKeys, h]]
      refine List.Nodup.cons ?_ (ih (a :: seen))
      intro hmem
      exact (mem_dedupKeys.mp hmem).2 (List.mem_cons_self a seen)

/-- Assoc-list lookup on a list with `Nodup` keys finds the stored value. -/
theorem lookup_of_mem_nodup [BEq α] [LawfulBEq α] {l : List (α × β)} {k : α} {v : β}
    (hnd : (l.map Prod.fst).Nodup) (hm : (k, v) ∈ l) :
    List.lookup k l = some v := by
  induction l with
  | nil => cases hm
  | cons p ps ih =>
    obtain ⟨k2, v2⟩ := p
    rw [List.map_cons, List.nodup_cons] at hnd
    rcases List.mem_cons.mp hm with heq | hm2
    · injection heq with h1 h2
      subst h1; subst h2
      simp [List.lookup_cons]
    · have hk : k ≠ k2 := by
        rintro rfl
        exact hnd.1 (List.mem_map.mpr ⟨(k, v), hm2, rfl⟩)
      rw [List.lookup_cons]
      have hbeq : (k == k2) = false := beq_eq_false_iff_ne.mpr hk
      rw [hbeq]
      exact ih hnd.2 hm2

/-- Assoc-list lookup misses when the key is absent. -/
theorem lookup_eq_none_of_not_mem [BEq α] [LawfulBEq α] {l : List (α × β)} {k : α}
    (h : k ∉ l.map Prod.fst) : List.lookup k l = none := by
  induction l with
  | nil => rfl
  | cons p ps ih =>
    obtain ⟨k2, v2⟩ := p
    rw [List.map_cons, List.mem_cons] at h
    push_neg at h
    rw [List.lookup_cons]
    have hbeq : (k == k2) = false := beq_eq_false_iff_ne.mpr h.1
    rw [hbeq]
    exact ih h.2

/- ### Grouped aggregation (pandas `groupby(...).sum()` / `.agg(...)`) -/

/-- Sum of `amount` over the rows of a group. -/
def sumFor [BEq K] (keyOf : BillRecord → K) (k : K) (l : List BillRecord) : ℚ :=
  ((l.filter fun r => keyOf r == k).map fun r => r.amount).sum

/-- Row count of a group (the `num_bills` column of the auxiliary sheets:
`.agg` counts the non-null entries of a fully populated column). -/
def countFor [BEq K] (keyOf : BillRecord → K) (k : K) (l : List BillRecord) : Nat :=
  (l.filter fun r => keyOf r == k).length

/-- The distinct group keys, sorted ascending (pandas `groupby` sorts group
keys by default). -/
def groupKeysSorted [DecidableEq K] (keyOf : BillRecord → K) (le : K → K → Bool)
    (l : List BillRecord) : List K :=
  sortByLe le (dedupKeys [] (l.map keyOf))

/-- `groupby(key)["amount"].sum()`: one `(key, summed amount)` row per
distinct key. -/
def groupSum [DecidableEq K] [BEq K] (keyOf : BillRecord → K) (le : K → K → Bool)
    (l : List BillRecord) : List (K × ℚ) :=
  (groupKeysSorted keyOf le l).map fun k => (k, sumFor keyOf k l)

/-- `groupby(key).agg(amount sum, count)`: one `(key, summed amount,
num_bills)` row per distinct key. -/
def groupAgg [DecidableEq K] [BEq K] (keyOf : BillRecord → K) (le : K → K → Bool)
    (l : List BillRecord) : List (K × ℚ × Nat) :=
  (groupKeysSorted keyOf le l).map fun k => (k, sumFor keyOf k l, countFor keyOf k l)

/-- Ascending comparison used for string group keys. -/
def strLe (a b : String) : Bool := decide (a ≤ b)

/-- Ascending comparison used for integer group keys. -/
def intLe (a b : Int) : Bool := decide (a ≤ b)

/- ### Record Store: load, create, add -/

/-- The canonical nine-column schema of the `Bills` table. -/
def canonicalColumns : List String :=
  ["date", "provider", "amount", "category", "description", "pdf_path",
   "year", "month", "added_on"]

/-- A DataFrame: a column list plus typed rows. -/
structure DF where
  columns : List String
  rows : List BillRecord
deriving DecidableEq, Repr

/-- `_create_empty_dataframe`: empty frame with the canonical columns. -/
def _create_empty_dataframe : DF :=
  { columns := canonicalColumns, rows := [] }

/-- Observable state of the backing file at load time: missing, present but
unparseable (`pd.read_excel` or the date coercion raises), or present and
parsed to a frame. -/
inductive FileState where
  | absent
  | present (parsed : Option DF)
deriving DecidableEq, Repr

/-- `_load_or_create_dataframe`: returns the warnings printed and the
resulting frame. -/
def _load_or_create_dataframe : FileState → List String × DF
  | .absent => ([], _create_empty_dataframe)
  | .present none =>
      (["Warning: Could not load existing file"], _create_empty_dataframe)
  | .present (some df) => ([], df)

/-- `float(record.get("amount", 0.0))`: an absent key coerces the default
`0.0`; a present value goes through the Python `float` coercion `floatFn`,
which may fail. -/
def coerceAmount (floatFn : String → Option ℚ) : Option String → Option ℚ
  | none => some 0
  | some a => floatFn a

/-- `add_record`: parse the date (falling back to `now` when `parseDate`
fails), build the new row with defaulted fields and derived `year`/`month`,
and append it.  A failing `float` coercion raises before the append. -/
def add_record (parseDate : String → Option Date) (floatFn : String → Option ℚ)
    (now : Date) (df : List BillRecord) (record : RecordInput) :
    Except String (List BillRecord) :=
  let date := (parseDate ((record.date).getD "")).getD now
  match coerceAmount floatFn record.amount with
  | none => .error "could not convert string to float"
  | some amt =>
      .ok (df ++ [{
        date := date
        provider := (record.provider).getD ""
        amount := amt
        category := (record.category).getD "medical"
        description := (record.description).getD ""
        pdf_path := (record.pdf_path).getD ""
        year := date.year
        month := date.month
        added_on := now }])

/- ### Reporting: get_summary -/

/-- Left fold keeping the smaller element (`Series.min`). -/
def foldMin (le : α → α → Bool) (x : α) (l : List α) : α :=
  l.foldl (fun a b => if le a b then a else b) x

/-- `self.df["date"].min()` (arbitrary on an empty frame, where the code
never evaluates it). -/
def dateMin (df : List BillRecord) : Date :=
  match df with
  | [] => ⟨0, 0, 0, 0⟩
  | r :: rs => foldMin Date.leB r.date (rs.map fun t => t.date)

/-- `self.df["date"].max()`. -/
def dateMax (df : List BillRecord) : Date :=
  match df with
  | [] => ⟨0, 0, 0, 0⟩
  | r :: rs => foldMin (fun a b => Date.leB b a) r.date (rs.map fun t => t.date)

/-- Result of `get_summary`: the empty-ledger dictionary or the full one. -/
inductive Summary where
  | emptyLedger (total_records : Nat) (total_amount : ℚ) (message : String)
  | full (total_records : Nat) (total_amount : ℚ) (earliest latest : String)
      (by_category : List (String × ℚ)) (by_year : List (Int × ℚ))
      (by_provider : List (String × ℚ))
deriving DecidableEq, Repr

/-- `get_summary`. -/
def get_summary (df : List BillRecord) : Summary :=
  if df.isEmpty then .emptyLedger 0 0.0 "No records found"
  else
    .full df.length ((df.map fun r => r.amount).sum)
      (dateMin df).render (dateMax df).render
      (groupSum (fun r => r.category) strLe df)
      (groupSum (fun r => r.year) intLe df)
      (groupSum (fun r => r.provider) strLe df)

/- ### Record Store: save -/

/-- Contents of the saved workbook: the `Bills` sheet plus the three
auxiliary sheets `By Year`, `By Category`, `By Provider`. -/
structure Workbook where
  bills : List BillRecord
  byYear : List (Int × ℚ × Nat)
  byCategory : List (String × ℚ × Nat)
  byProvider : List (String × ℚ × Nat)
deriving DecidableEq, Repr

/-- Descending comparison on the summed amount of an aggregation row
(`sort_values("amount", ascending=False)` on the provider sheet). -/
def amountGe (p q : String × ℚ × Nat) : Bool := decide (q.2.1 ≤ p.2.1)

/-- `_write_summary_sheets`: the three aggregation sheets, regenerated from
the frame being saved. -/
def _write_summary_sheets (df : List BillRecord) :
    List (Int × ℚ × Nat) × List (String × ℚ × Nat) × List (String × ℚ × Nat) :=
  (groupAgg (fun r => r.year) intLe df,
   groupAgg (fun r => r.category) strLe df,
   sortByLe amountGe (groupAgg (fun r => r.provider) strLe df))

/-- `save`: on an empty ledger, print a warning and leave the disk alone;
otherwise sort the ledger by date descending (this reassigns `self.df`) and
overwrite the backing file with the `Bills` sheet plus the summary sheets.
Returns (printed messages, disk after the call, `self.df` after the call). -/
def save (df : List BillRecord) (disk : Option Workbook) :
    List String × Option Workbook × List BillRecord :=
  if df.isEmpty then (["Warning: No data to save"], disk, df)
  else
    let sorted := sortByLe (fun a b => Date.leB b.date a.date) df
    let sheets := _write_summary_sheets sorted
    (["Saved"],
     some { bills := sorted, byYear := sheets.1, byCategory := sheets.2.1,
            byProvider := sheets.2.2 },
     sorted)

/- ### Reporting: export_for_taxes -/

/-- Columns of the tax `Details` sheet. -/
def taxDetailColumns : List String :=
  ["date", "provider", "category", "amount", "description"]

/-- Columns the code selects when writing the `Monthly Summary` sheet
(line `monthly_summary[["month_name", "amount"]].to_excel(...)`). -/
def taxMonthlyColumns : List String := ["month_name", "amount"]

/-- One row of the `Details` sheet. -/
def detailRow (r : BillRecord) : Date × String × String × ℚ × String :=
  (r.date, r.provider, r.category, r.amount, r.description)

/-- The `groupby(["month", "month_name"])` key: the stored `month` column
paired with `strftime("%B")` of the date. -/
def monthKey (r : BillRecord) : Nat × String := (r.month, monthName r.date.month)

/-- Ascending order on the composite month key (pandas sorts group keys). -/
def monthPairLe (p q : Nat × String) : Bool :=
  decide (p.1 < q.1) || (decide (p.1 = q.1) && strLe p.2 q.2)

/-- `sort_values("month")` on the grouped monthly rows. -/
def monthNumLe (p q : (Nat × String) × ℚ) : Bool := decide (p.1.1 ≤ q.1.1)

/-- The grouped-and-month-sorted monthly summary rows, with their keys. -/
def monthlySorted (l : List BillRecord) : List ((Nat × String) × ℚ) :=
  sortByLe monthNumLe (groupSum monthKey monthPairLe l)

/-- A value of the 4-row overview sheet (kept unformatted: the `$`/2-decimal
rendering is display-only). -/
inductive MetricVal where
  | money (q : ℚ)
  | countOf (n : Nat)
  | taxYear (y : Int)
deriving DecidableEq, Repr

/-- The artifact written by `export_for_taxes`. -/
structure TaxExport where
  detailColumns : List String
  details : List (Date × String × String × ℚ × String)
  categorySummary : List (String × ℚ)
  monthlyColumns : List String
  monthly : List (String × ℚ)
  overall : List (String × MetricVal)
deriving DecidableEq, Repr

/-- `export_for_taxes`. -/
def export_for_taxes (df : List BillRecord) (year : Int) :
    Except String TaxExport :=
  let year_df := df.filter fun r => r.year == year
  if year_df.isEmpty then
    .error ("No records found for year " ++ toString year)
  else
    let sorted := sortByLe (fun a b => Date.leB a.date b.date) year_df
    let total := (sorted.map fun r => r.amount).sum
    .ok {
      detailColumns := taxDetailColumns
      details := sorted.map detailRow
      categorySummary := groupSum (fun r => r.category) strLe sorted
      monthlyColumns := taxMonthlyColumns
      monthly := (monthlySorted sorted).map fun p => (p.1.2, p.2)
      overall := [("Total Amount", .money total),
                  ("Number of Bills", .countOf sorted.length),
                  ("Average Bill Amount", .money (total / sorted.length)),
                  ("Tax Year", .taxYear year)] }

/- ### Reporting: export_hsa_reconciliation -/

/-- `hsa_eligible_categories`. -/
def hsa_eligible_categories : List String :=
  ["medical", "dental", "vision", "prescription", "pharmacy"]

/-- One row of the `HSA Expenses` sheet. -/
def hsaRow (r : BillRecord) : Date × String × String × ℚ × String × String :=
  (r.date, r.provider, r.category, r.amount, r.description, r.pdf_path)

/-- The artifact written by `export_hsa_reconciliation`. -/
structure HsaExport where
  expenseColumns : List String
  expenses : List (Date × String × String × ℚ × String × String)
  yearlyTotals : List (Int × ℚ)
deriving DecidableEq, Repr

/-- `export_hsa_reconciliation`. -/
def export_hsa_reconciliation (df : List BillRecord) :
    Except String HsaExport :=
  let hsa_df := df.filter fun r => hsa_eligible_categories.contains r.category
  if hsa_df.isEmpty then .error "No HSA-eligible records found"
  else
    let sorted := sortByLe (fun a b => Date.leB a.date b.date) hsa_df
    .ok { expenseColumns := ["date", "provider", "category", "amount",
                             "description", "pdf_path"]
          expenses := sorted.map hsaRow
          yearlyTotals := groupSum (fun r => r.year) intLe sorted }

/- ### Lemmas about grouping, sorting, and minima -/

theorem mem_groupKeysSorted [DecidableEq K] {keyOf : BillRecord → K}
    {le : K → K → Bool} {l : List BillRecord} {k : K} :
    k ∈ groupKeysSorted keyOf le l ↔ k ∈ l.map keyOf := by
  rw [groupKeysSorted, (sortByLe_perm le _).mem_iff, mem_dedupKeys]
  simp

theorem groupKeysSorted_nodup [DecidableEq K] (keyOf : BillRecord → K)
    (le : K → K → Bool) (l : List BillRecord) :
    (groupKeysSorted keyOf le l).Nodup :=
  (sortByLe_perm le _).nodup_iff.mpr (dedupKeys_nodup [] _)

/-- Lookup in any permutation of a keyed map over `Nodup` keys. -/
theorem lookup_keyed_map [BEq K] [LawfulBEq K]
    (ks : List K) (f : K → V) (m : List (K × V))
    (hperm : m.Perm (ks.map fun k => (k, f k))) (hnd : ks.Nodup) :
    (∀ k ∈ ks, List.lookup k m = some (f k)) ∧
    (∀ k, k ∉ ks → List.lookup k m = none) := by
  have hkeys : (m.map Prod.fst).Perm ks := by
    have h2 := hperm.map Prod.fst
    rw [List.map_map] at h2
    have h3 : (Prod.fst ∘ fun k => (k, f k)) = fun k : K => k := rfl
    rw [h3] at h2
    simpa using h2
  constructor
  · intro k hk
    apply lookup_of_mem_nodup
    · exact hkeys.nodup_iff.mpr hnd
    · exact hperm.mem_iff.mpr (List.mem_map.mpr ⟨k, hk, rfl⟩)
  · intro k hk
    apply lookup_eq_none_of_not_mem
    intro hc
    exact hk (hkeys.mem_iff.mp hc)

theorem sumFor_perm [BEq K] (keyOf : BillRecord → K) (k : K)
    {l1 l2 : List BillRecord} (hp : l1.Perm l2) :
    sumFor keyOf k l1 = sumFor keyOf k l2 :=
  (List.Perm.map _ (List.Perm.filter _ hp)).sum_eq

theorem countFor_perm [BEq K] (keyOf : BillRecord → K) (k : K)
    {l1 l2 : List BillRecord} (hp : l1.Perm l2) :
    countFor keyOf k l1 = countFor keyOf k l2 :=
  (List.Perm.filter _ hp).length_eq

theorem foldMin_mem (le : α → α → Bool) (x : α) (l : List α) :
    foldMin le x l = x ∨ foldMin le x l ∈ l := by
  induction l generalizing x with
  | nil => exact Or.inl rfl
  | cons b bs ih =>
    have hfold : foldMin le x (b :: bs) = foldMin le (if le x b then x else b) bs := rfl
    rw [hfold]
    rcases ih (if le x b then x else b) with h | h
    · rw [h]
      by_cases hxb : le x b
      · rw [if_pos hxb]; exact Or.inl rfl
      · rw [if_neg hxb]; exact Or.inr (List.mem_cons_self b bs)
    · exact Or.inr (List.mem_cons_of_mem b h)

theorem foldMin_le (le : α → α → Bool)
    (htot : ∀ a b, le a b = true ∨ le b a = true)
    (htrans : ∀ a b c, le a b = true → le b c = true → le a c = true)
    (x : α) (l : List α) :
    le (foldMin le x l) x = true ∧ ∀ y ∈ l, le (foldMin le x l) y = true := by
  induction l generalizing x with
  | nil =>
    constructor
    · rcases htot x x with h | h <;> simpa [foldMin] using h
    · intro y hy; cases hy
  | cons b bs ih =>
    have hfold : foldMin le x (b :: bs) = foldMin le (if le x b then x else b) bs := rfl
    by_cases hxb : le x b
    · rw [hfold, if_pos hxb]
      obtain ⟨h1, h2⟩ := ih x
      refine ⟨h1, ?_⟩
      intro y hy
      rcases List.mem_cons.mp hy with rfl | hy
      · exact htrans _ _ _ h1 hxb
      · exact h2 y hy
    · rw [hfold, if_neg hxb]
      obtain ⟨h1, h2⟩ := ih b
      have hbx : le b x = true := by
        rcases htot x b with h | h
        · exact absurd h hxb
        · exact h
      refine ⟨htrans _ _ _ h1 hbx, ?_⟩
      intro y hy
      rcases List.mem_cons.mp hy with rfl | hy
      · exact h1
      · exact h2 y hy

theorem dateMin_spec {df : List BillRecord} (h : df ≠ []) :
    (∃ r ∈ df, r.date = dateMin df) ∧
    ∀ r ∈ df, Date.leB (dateMin df) r.date = true := by
  cases df with
  | nil => exact absurd rfl h
  | cons r rs =>
    have hmin : dateMin (r :: rs) = foldMin Date.leB r.date (rs.map fun t => t.date) := rfl
    rw [hmin]
    obtain ⟨h1, h2⟩ := foldMin_le Date.leB Date.leB_total
      (fun a b c hab hbc => Date.leB_trans hab hbc)
      r.date (rs.map fun t => t.date)
    constructor
    · rcases foldMin_mem Date.leB r.date (rs.map fun t => t.date) with hm | hm
      · exact ⟨r, List.mem_cons_self r rs, hm.symm⟩
      · obtain ⟨t, ht, hteq⟩ := List.mem_map.mp hm
        exact ⟨t, List.mem_cons_of_mem r ht, hteq⟩
    · intro r2 hr2
      rcases List.mem_cons.mp hr2 with rfl | hr2
      · exact h1
      · exact h2 r2.date (List.mem_map.mpr ⟨r2, hr2, rfl⟩)

theorem dateMax_spec {df : List BillRecord} (h : df ≠ []) :
    (∃ r ∈ df, r.date = dateMax df) ∧
    ∀ r ∈ df, Date.leB r.date (dateMax df) = true := by
  cases df with
  | nil => exact absurd rfl h
  | cons r rs =>
    have hmax : dateMax (r :: rs) =
        foldMin (fun a b => Date.leB b a) r.date (rs.map fun t => t.date) := rfl
    rw [hmax]
    have htot : ∀ a b : Date, Date.leB b a = true ∨ Date.leB a b = true :=
      fun a b => (Date.leB_total b a)
    have htrans : ∀ a b c : Date, Date.leB b a = true → Date.leB c b = true →
        Date.leB c a = true := fun a b c hab hbc => Date.leB_trans hbc hab
    obtain ⟨h1, h2⟩ := foldMin_le (fun a b => Date.leB b a) htot htrans
      r.date (rs.map fun t => t.date)
    constructor
    · rcases foldMin_mem (fun a b => Date.leB b a) r.date
        (rs.map fun t => t.date) with hm | hm
      · exact ⟨r, List.mem_cons_self r rs, hm.symm⟩
      · obtain ⟨t, ht, hteq⟩ := List.mem_map.mp hm
        exact ⟨t, List.mem_cons_of_mem r ht, hteq⟩
    · intro r2 hr2
      rcases List.mem_cons.mp hr2 with rfl | hr2
      · exact h1
      · exact h2 r2.date (List.mem_map.mpr ⟨r2, hr2, rfl⟩)

/- ### Concrete inputs used by witnesses and counterexamples -/

/-- A date parser succeeding with 15 March 2024 (e.g. on "2024-03-15"). -/
def wParse1 : String → Option Date := fun _ => some ⟨2024, 3, 15, 0⟩

/-- A date parser that fails on every input (an unparseable date string). -/
def wParseFail : String → Option Date := fun _ => none

/-- A float coercion succeeding with 120. -/
def wFloat120 : String → Option ℚ := fun _ => some 120

/-- A float coercion that fails (an uncoercible amount value). -/
def wFloatFail : String → Option ℚ := fun _ => none

/-- A call-time timestamp. -/
def wNow1 : Date := ⟨2024, 3, 16, 9⟩

/-- A well-formed input record. -/
def wInput1 : RecordInput where
  date := some "2024-03-15"
  provider := some "Dr. Smith"
  amount := some "120.0"
  category := none
  description := none
  pdf_path := none

/-- The ledger row `wInput1` resolves to. -/
def wRow1 : BillRecord where
  date := ⟨2024, 3, 15, 0⟩
  provider := "Dr. Smith"
  amount := 120
  category := "medical"
  description := ""
  pdf_path := ""
  year := 2024
  month := 3
  added_on := ⟨2024, 3, 16, 9⟩

/-- An input record with an unparseable date and an uncoercible amount. -/
def wInputBadBoth : RecordInput where
  date := some "not-a-date"
  provider := some "p"
  amount := some "not-a-number"
  category := none
  description := none
  pdf_path := none

/-- An input record with an unparseable date and an absent amount key. -/
def wInputBadDate : RecordInput where
  date := some "not-a-date"
  provider := some "Clinic"
  amount := none
  category := none
  description := none
  pdf_path := none

/-- The ledger row `wInputBadDate` resolves to when `now = wNow1`. -/
def wRowBadDate : BillRecord where
  date := wNow1
  provider := "Clinic"
  amount := 0
  category := "medical"
  description := ""
  pdf_path := ""
  year := 2024
  month := 3
  added_on := wNow1

/-- An input record with a parseable date and an uncoercible amount. -/
def wInputBadAmount : RecordInput where
  date := some "2024-03-15"
  provider := some "p"
  amount := some "twelve dollars"
  category := none
  description := none
  pdf_path := none

/- ### Claim theorems -/

/-- C6: every successful `add_record` call appends exactly one record whose
`year` and `month` fields equal the year and month of its resolved `date`,
so the ledger invariant "year/month consistent with date" is preserved. -/
theorem add_record_year_month_consistent
    (parseDate : String → Option Date) (floatFn : String → Option ℚ)
    (now : Date) (df : List BillRecord) (record : RecordInput)
    (df2 : List BillRecord)
    (h : add_record parseDate floatFn now df record = .ok df2) :
    (∃ r : BillRecord, df2 = df ++ [r] ∧ r.year = r.date.year ∧
      r.month = r.date.month) ∧
    ((∀ r ∈ df, r.year = r.date.year ∧ r.month = r.date.month) →
      ∀ r ∈ df2, r.year = r.date.year ∧ r.month = r.date.month) := by
  cases hc : coerceAmount floatFn record.amount with
  | none => simp [add_record, hc] at h
  | some amt =>
    simp only [add_record, hc] at h
    refine ⟨⟨_, (Except.ok.inj h).symm, rfl, rfl⟩, ?_⟩
    intro hall r hr
    rw [← Except.ok.inj h] at hr
    rcases List.mem_append.mp hr with hr | hr
    · exact hall r hr
    · rcases List.mem_cons.mp hr with rfl | hr
      · exact ⟨rfl, rfl⟩
      · cases hr

/-- C6 witness: a concrete successful call appends a consistent row. -/
theorem add_record_year_month_consistent_witness :
    add_record wParse1 wFloat120 wNow1 [] wInput1 = .ok [wRow1] ∧
    (∃ r : BillRecord, [wRow1] = [] ++ [r] ∧ r.year = r.date.year ∧
      r.month = r.date.month) :=
  ⟨rfl,
   (add_record_year_month_consistent wParse1 wFloat120 wNow1 [] wInput1
      [wRow1] rfl).1⟩

/-- C1 counterexample: an input record whose date string is unparseable is
nevertheless rejected (nothing is appended) when its amount value fails the
`float` coercion, because that coercion raises before the append. -/
theorem add_record_unparseable_date_cex :
    add_record wParseFail wFloatFail wNow1 [] wInputBadBoth =
      .error "could not convert string to float" := rfl

/-- C1 (amended): for an input record whose date string is unparseable and
whose amount field passes the `float` coercion (in particular when it is
absent), `add_record` still appends the record, with its date set to the
current timestamp and `year`/`month` computed from that substituted date. -/
theorem add_record_unparseable_date_appends
    (parseDate : String → Option Date) (floatFn : String → Option ℚ)
    (now : Date) (df : List BillRecord) (record : RecordInput) (q : ℚ)
    (hdate : parseDate ((record.date).getD "") = none)
    (hamt : coerceAmount floatFn record.amount = some q) :
    add_record parseDate floatFn now df record = .ok (df ++ [{
      date := now
      provider := (record.provider).getD ""
      amount := q
      category := (record.category).getD "medical"
      description := (record.description).getD ""
      pdf_path := (record.pdf_path).getD ""
      year := now.year
      month := now.month
      added_on := now }]) := by
  simp [add_record, hdate, hamt]

/-- C1 witness: a concrete unparseable-date record with an absent amount is
appended, dated with the call-time timestamp. -/
theorem add_record_unparseable_date_appends_witness :
    wParseFail ((wInputBadDate.date).getD "") = none ∧
    coerceAmount wFloatFail wInputBadDate.amount = some 0 ∧
    add_record wParseFail wFloatFail wNow1 [] wInputBadDate = .ok [wRowBadDate] :=
  ⟨rfl, rfl,
   add_record_unparseable_date_appends wParseFail wFloatFail wNow1 []
     wInputBadDate 0 rfl rfl⟩

/-- C10: when the amount value fails the `float` coercion, `add_record`
raises before appending anything; no successor ledger is ever produced, so
the caller's in-memory ledger is left unchanged. -/
theorem add_record_bad_amount_raises
    (parseDate : String → Option Date) (floatFn : String → Option ℚ)
    (now : Date) (df : List BillRecord) (record : RecordInput)
    (h : coerceAmount floatFn record.amount = none) :
    add_record parseDate floatFn now df record =
      .error "could not convert string to float" ∧
    ∀ df2, add_record parseDate floatFn now df record ≠ .ok df2 := by
  have h1 : add_record parseDate floatFn now df record =
      .error "could not convert string to float" := by
    simp [add_record, h]
  refine ⟨h1, ?_⟩
  intro df2 hc
  rw [h1] at hc
  cases hc

/-- C10 witness: a concrete uncoercible amount raises. -/
theorem add_record_bad_amount_raises_witness :
    coerceAmount wFloatFail wInputBadAmount.amount = none ∧
    add_record wParse1 wFloatFail wNow1 [] wInputBadAmount =
      .error "could not convert string to float" :=
  ⟨rfl,
   (add_record_bad_amount_raises wParse1 wFloatFail wNow1 [] wInputBadAmount
      rfl).1⟩

/-- Lookup characterisation of `groupby(key)["amount"].sum()`. -/
theorem lookup_groupSum [DecidableEq K] [BEq K] [LawfulBEq K]
    (keyOf : BillRecord → K) (le : K → K → Bool) (l : List BillRecord) (k : K) :
    ((∃ r ∈ l, keyOf r = k) →
      List.lookup k (groupSum keyOf le l) = some (sumFor keyOf k l)) ∧
    ((¬ ∃ r ∈ l, keyOf r = k) → List.lookup k (groupSum keyOf le l) = none) := by
  obtain ⟨h1, h2⟩ := lookup_keyed_map (groupKeysSorted keyOf le l)
      (fun k => sumFor keyOf k l) (groupSum keyOf le l)
      (List.Perm.refl _) (groupKeysSorted_nodup keyOf le l)
  constructor
  · rintro ⟨r, hr, hk⟩
    exact h1 k (mem_groupKeysSorted.mpr (List.mem_map.mpr ⟨r, hr, hk⟩))
  · intro hn
    refine h2 k ?_
    intro hc
    obtain ⟨r, hr, hk⟩ := List.mem_map.mp (mem_groupKeysSorted.mp hc)
    exact hn ⟨r, hr, hk⟩

/-- Lookup characterisation of `groupby(key).agg(sum, count)`. -/
theorem lookup_groupAgg [DecidableEq K] [BEq K] [LawfulBEq K]
    (keyOf : BillRecord → K) (le : K → K → Bool) (l : List BillRecord) (k : K) :
    ((∃ r ∈ l, keyOf r = k) → List.lookup k (groupAgg keyOf le l) =
      some (sumFor keyOf k l, countFor keyOf k l)) ∧
    ((¬ ∃ r ∈ l, keyOf r = k) → List.lookup k (groupAgg keyOf le l) = none) := by
  obtain ⟨h1, h2⟩ := lookup_keyed_map (groupKeysSorted keyOf le l)
      (fun k => (sumFor keyOf k l, countFor keyOf k l)) (groupAgg keyOf le l)
      (List.Perm.refl _) (groupKeysSorted_nodup keyOf le l)
  constructor
  · rintro ⟨r, hr, hk⟩
    exact h1 k (mem_groupKeysSorted.mpr (List.mem_map.mpr ⟨r, hr, hk⟩))
  · intro hn
    refine h2 k ?_
    intro hc
    obtain ⟨r, hr, hk⟩ := List.mem_map.mp (mem_groupKeysSorted.mp hc)
    exact hn ⟨r, hr, hk⟩

/-- C7: `save` on an empty ledger prints the warning and performs no write:
the backing file — whatever it held, including no file at all — is left
exactly as it was, and the in-memory frame is untouched. -/
theorem save_empty_noop (disk : Option Workbook) :
    save [] disk = (["Warning: No data to save"], disk, []) := rfl

/-- C8: load never fails the session: a missing backing file yields the
empty ledger with the canonical nine-column schema and no warning, and an
unparseable backing file yields a warning plus the same empty canonical
ledger. -/
theorem load_failure_fallback :
    _load_or_create_dataframe FileState.absent =
      ([], { columns := canonicalColumns, rows := [] }) ∧
    _load_or_create_dataframe (FileState.present none) =
      (["Warning: Could not load existing file"],
       { columns := canonicalColumns, rows := [] }) ∧
    canonicalColumns.length = 9 :=
  ⟨rfl, rfl, rfl⟩

/-- What `get_summary` returns on a non-empty ledger: total count, exact
total, rendered min/max dates, and the three key-to-summed-amount maps. -/
def summaryFullSpec (df : List BillRecord) : Prop :=
  ∃ e lt bc byy bpr,
    get_summary df =
      Summary.full df.length ((df.map fun r => r.amount).sum) e lt bc byy bpr ∧
    (∃ dmin : Date, (∃ r ∈ df, r.date = dmin) ∧
      (∀ r ∈ df, Date.leB dmin r.date = true) ∧ e = dmin.render) ∧
    (∃ dmax : Date, (∃ r ∈ df, r.date = dmax) ∧
      (∀ r ∈ df, Date.leB r.date dmax = true) ∧ lt = dmax.render) ∧
    (∀ c : String,
      ((∃ r ∈ df, r.category = c) →
        List.lookup c bc = some (sumFor (fun r => r.category) c df)) ∧
      ((¬ ∃ r ∈ df, r.category = c) → List.lookup c bc = none)) ∧
    (∀ y : Int,
      ((∃ r ∈ df, r.year = y) →
        List.lookup y byy = some (sumFor (fun r => r.year) y df)) ∧
      ((¬ ∃ r ∈ df, r.year = y) → List.lookup y byy = none)) ∧
    (∀ p : String,
      ((∃ r ∈ df, r.provider = p) →
        List.lookup p bpr = some (sumFor (fun r => r.provider) p df)) ∧
      ((¬ ∃ r ∈ df, r.provider = p) → List.lookup p bpr = none))

/-- C3: `get_summary` returns the fixed empty-ledger dictionary on an empty
ledger; on N records it returns `total_records = N`, the exact sum of all
amounts, the rendered min and max date, and the per-category, per-year and
per-provider mappings from group key to summed amount. -/
theorem get_summary_spec (df : List BillRecord) :
    (df = [] → get_summary df = Summary.emptyLedger 0 0.0 "No records found") ∧
    (df ≠ [] → summaryFullSpec df) := by
  constructor
  · rintro rfl; rfl
  · intro h
    have hne : df.isEmpty = false := by
      cases df with
      | nil => exact absurd rfl h
      | cons a l => rfl
    refine ⟨(dateMin df).render, (dateMax df).render,
      groupSum (fun r => r.category) strLe df,
      groupSum (fun r => r.year) intLe df,
      groupSum (fun r => r.provider) strLe df,
      by simp [get_summary, hne], ?_, ?_, ?_, ?_, ?_⟩
    · obtain ⟨hmem, hmin⟩ := dateMin_spec h
      exact ⟨dateMin df, hmem, hmin, rfl⟩
    · obtain ⟨hmem, hmax⟩ := dateMax_spec h
      exact ⟨dateMax df, hmem, hmax, rfl⟩
    · intro c
      exact lookup_groupSum (fun r => r.category) strLe df c
    · intro y
      exact lookup_groupSum (fun r => r.year) intLe df y
    · intro p
      exact lookup_groupSum (fun r => r.provider) strLe df p

/-- C3 witness: the empty case, and a concrete one-record ledger. -/
theorem get_summary_spec_witness :
    get_summary [] = Summary.emptyLedger 0 0.0 "No records found" ∧
    summaryFullSpec [wRow1] :=
  ⟨(get_summary_spec []).1 rfl,
   (get_summary_spec [wRow1]).2 (by simp)⟩

/-- What `export_for_taxes` guarantees about a successful export: the
`Details` sheet holds exactly the records of the requested year, sorted
ascending by date. -/
def taxExportOkSpec (df : List BillRecord) (year : Int) : Prop :=
  ∀ t, export_for_taxes df year = .ok t →
    t.details.Perm ((df.filter fun r => r.year == year).map detailRow) ∧
    List.Pairwise (fun p q => Date.leB p.1 q.1 = true) t.details

/-- C4: `export_for_taxes` raises the "no records" error exactly when no
ledger record has the requested year; otherwise the `Details` sheet holds
exactly the filtered records sorted ascending by date. -/
theorem export_for_taxes_spec (df : List BillRecord) (year : Int) :
    ((∃ msg, export_for_taxes df year = .error msg) ↔
      df.filter (fun r => r.year == year) = []) ∧
    taxExportOkSpec df year := by
  by_cases hfil : df.filter (fun r => r.year == year) = []
  · have hexp : export_for_taxes df year =
        .error ("No records found for year " ++ toString year) := by
      simp [export_for_taxes, hfil]
    refine ⟨⟨fun _ => hfil, fun _ => ⟨_, hexp⟩⟩, ?_⟩
    intro t ht
    rw [hexp] at ht
    exact Except.noConfusion ht
  · have hne : (df.filter fun r => r.year == year).isEmpty = false := by
      cases hx : df.filter (fun r => r.year == year) with
      | nil => exact absurd hx hfil
      | cons a l => rfl
    constructor
    · constructor
      · rintro ⟨msg, hmsg⟩
        simp only [export_for_taxes, hne, Bool.false_eq_true, if_false] at hmsg
        exact Except.noConfusion hmsg
      · intro hc
        exact absurd hc hfil
    · intro t ht
      simp only [export_for_taxes, hne, Bool.false_eq_true, if_false] at ht
      rw [← Except.ok.inj ht]
      constructor
      · exact List.Perm.map detailRow (sortByLe_perm _ _)
      · rw [List.pairwise_map]
        exact sortByLe_pairwise (fun a b : BillRecord => Date.leB a.date b.date)
          (fun a b => Date.leB_total a.date b.date)
          (fun a b c hab hbc => Date.leB_trans hab hbc) _

/-- An empty tax artifact (used only as a `getD` default below). -/
def emptyTaxExport : TaxExport where
  detailColumns := []
  details := []
  categorySummary := []
  monthlyColumns := []
  monthly := []
  overall := []

/-- The artifact of a concrete successful tax export. -/
def wTax1 : TaxExport :=
  ((export_for_taxes [wRow1] 2024).toOption).getD emptyTaxExport

/-- C4 witness: a concrete export succeeds (and satisfies the spec), and a
concrete year with no records fails with the "no records" error. -/
theorem export_for_taxes_spec_witness :
    export_for_taxes [wRow1] 2024 = Except.ok wTax1 ∧
    (∃ msg, export_for_taxes [wRow1] 2099 = .error msg) ∧
    (((∃ msg, export_for_taxes [wRow1] 2024 = .error msg) ↔
       ([wRow1] : List BillRecord).filter (fun r => r.year == (2024 : Int)) = []) ∧
     taxExportOkSpec [wRow1] 2024) :=
  ⟨rfl,
   (export_for_taxes_spec [wRow1] 2099).1.mpr rfl,
   export_for_taxes_spec [wRow1] 2024⟩

/-- What `export_hsa_reconciliation` guarantees about a successful export:
the `HSA Expenses` sheet holds exactly the HSA-eligible records, sorted
ascending by date. -/
def hsaOkSpec (df : List BillRecord) : Prop :=
  ∀ t, export_hsa_reconciliation df = .ok t →
    t.expenses.Perm
      ((df.filter fun r => hsa_eligible_categories.contains r.category).map hsaRow) ∧
    List.Pairwise (fun p q => Date.leB p.1 q.1 = true) t.expenses

/-- C5: `export_hsa_reconciliation` includes exactly the records whose
category lies in the HSA-eligible set, and raises the "no records" error
exactly when no record has an eligible category. -/
theorem export_hsa_spec (df : List BillRecord) :
    ((∃ msg, export_hsa_reconciliation df = .error msg) ↔
      ∀ r ∈ df, r.category ∉ hsa_eligible_categories) ∧
    hsaOkSpec df := by
  by_cases hfil : df.filter (fun r => hsa_eligible_categories.contains r.category) = []
  · have hemp : (df.filter fun r =>
        hsa_eligible_categories.contains r.category).isEmpty = true := by
      rw [hfil]; rfl
    have hexp : export_hsa_reconciliation df =
        .error "No HSA-eligible records found" := by
      simp only [export_hsa_reconciliation, hemp]
      rfl
    have hforall : ∀ r ∈ df, r.category ∉ hsa_eligible_categories := by
      intro r hr hmem
      have hc : hsa_eligible_categories.contains r.category = true := by
        simpa using hmem
      have hrf : r ∈ df.filter
          (fun r => hsa_eligible_categories.contains r.category) :=
        List.mem_filter.mpr ⟨hr, hc⟩
      rw [hfil] at hrf
      cases hrf
    refine ⟨⟨fun _ => hforall, fun _ => ⟨_, hexp⟩⟩, ?_⟩
    intro t ht
    rw [hexp] at ht
    exact Except.noConfusion ht
  · have hne : (df.filter fun r =>
        hsa_eligible_categories.contains r.category).isEmpty = false := by
      cases hx : df.filter (fun r => hsa_eligible_categories.contains r.category) with
      | nil => exact absurd hx hfil
      | cons a l => rfl
    constructor
    · constructor
      · rintro ⟨msg, hmsg⟩
        simp only [export_hsa_reconciliation, hne, Bool.false_eq_true,
          if_false] at hmsg
        exact Except.noConfusion hmsg
      · intro hall
        exfalso
        cases hx : df.filter (fun r => hsa_eligible_categories.contains r.category) with
        | nil => exact hfil hx
        | cons a l =>
          have ha : a ∈ df.filter
              (fun r => hsa_eligible_categories.contains r.category) := by
            rw [hx]
            exact List.mem_cons_self a l
          obtain ⟨hadf, hac⟩ := List.mem_filter.mp ha
          have hmem : a.category ∈ hsa_eligible_categories := by
            simpa using hac
          exact hall a hadf hmem
    · intro t ht
      simp only [export_hsa_reconciliation, hne, Bool.false_eq_true,
        if_false] at ht
      rw [← Except.ok.inj ht]
      constructor
      · exact List.Perm.map hsaRow (sortByLe_perm _ _)
      · rw [List.pairwise_map]
        exact sortByLe_pairwise (fun a b : BillRecord => Date.leB a.date b.date)
          (fun a b => Date.leB_total a.date b.date)
          (fun a b c hab hbc => Date.leB_trans hab hbc) _

/-- A ledger row with a category outside the HSA-eligible set. -/
def wRowGym : BillRecord where
  date := ⟨2024, 1, 10, 0⟩
  provider := "Gym Co"
  amount := 45
  category := "gym"
  description := ""
  pdf_path := ""
  year := 2024
  month := 1
  added_on := ⟨2024, 1, 11, 0⟩

/-- An empty HSA artifact (used only as a `getD` default below). -/
def emptyHsaExport : HsaExport where
  expenseColumns := []
  expenses := []
  yearlyTotals := []

/-- The artifact of a concrete successful HSA export. -/
def wHsa1 : HsaExport :=
  ((export_hsa_reconciliation [wRow1, wRowGym]).toOption).getD emptyHsaExport

/-- C5 witness: a ledger with one eligible and one "gym" record exports
successfully (and satisfies the spec), and a gym-only ledger fails. -/
theorem export_hsa_spec_witness :
    export_hsa_reconciliation [wRow1, wRowGym] = Except.ok wHsa1 ∧
    (∃ msg, export_hsa_reconciliation [wRowGym] = .error msg) ∧
    (((∃ msg, export_hsa_reconciliation [wRow1, wRowGym] = .error msg) ↔
       ∀ r ∈ ([wRow1, wRowGym] : List BillRecord),
         r.category ∉ hsa_eligible_categories) ∧
     hsaOkSpec [wRow1, wRowGym]) :=
  ⟨rfl,
   (export_hsa_spec [wRowGym]).1.mpr (by decide),
   export_hsa_spec [wRow1, wRowGym]⟩

/-- `map Prod.fst` of a grouped-sum table is its sorted key list. -/
theorem map_fst_groupSum [DecidableEq K] [BEq K] (keyOf : BillRecord → K)
    (le : K → K → Bool) (l : List BillRecord) :
    (groupSum keyOf le l).map Prod.fst = groupKeysSorted keyOf le l := by
  have h3 : (Prod.fst ∘ fun k => (k, sumFor keyOf k l)) = fun k : K => k := rfl
  rw [groupSum, List.map_map, h3, List.map_id']

/-- What the workbook written by a non-empty `save` must satisfy: the
`Bills` sheet is the ledger sorted by date descending, and each auxiliary
sheet maps each occurring group key to its summed amount and its
`num_bills` row count. -/
def savedWorkbookSpec (df : List BillRecord) (wb : Workbook)
    (df2 : List BillRecord) : Prop :=
  wb.bills = df2 ∧ df2.Perm df ∧
  List.Pairwise (fun a b : BillRecord => Date.leB b.date a.date = true) df2 ∧
  (∀ y : Int,
    ((∃ r ∈ df, r.year = y) → List.lookup y wb.byYear =
      some (sumFor (fun r => r.year) y df, countFor (fun r => r.year) y df)) ∧
    ((¬ ∃ r ∈ df, r.year = y) → List.lookup y wb.byYear = none)) ∧
  (∀ c : String,
    ((∃ r ∈ df, r.category = c) → List.lookup c wb.byCategory =
      some (sumFor (fun r => r.category) c df,
            countFor (fun r => r.category) c df)) ∧
    ((¬ ∃ r ∈ df, r.category = c) → List.lookup c wb.byCategory = none)) ∧
  (∀ p : String,
    ((∃ r ∈ df, r.provider = p) → List.lookup p wb.byProvider =
      some (sumFor (fun r => r.provider) p df,
            countFor (fun r => r.provider) p df)) ∧
    ((¬ ∃ r ∈ df, r.provider = p) → List.lookup p wb.byProvider = none))

/-- C9: a non-empty `save` writes the `Bills` sheet sorted by date
descending plus the three auxiliary sheets `By Year`, `By Category` and
`By Provider`, each carrying the per-group summed amount and `num_bills`
count, all regenerated from the ledger being saved. -/
theorem save_nonempty_spec (df : List BillRecord) (disk : Option Workbook)
    (h : df ≠ []) :
    ∃ wb df2, save df disk = (["Saved"], some wb, df2) ∧
      savedWorkbookSpec df wb df2 := by
  have hne : df.isEmpty = false := by
    cases df with
    | nil => exact absurd rfl h
    | cons a l => rfl
  have hsave : save df disk = (["Saved"],
      some { bills := sortByLe (fun a b => Date.leB b.date a.date) df
             byYear := groupAgg (fun r => r.year) intLe
               (sortByLe (fun a b => Date.leB b.date a.date) df)
             byCategory := groupAgg (fun r => r.category) strLe
               (sortByLe (fun a b => Date.leB b.date a.date) df)
             byProvider := sortByLe amountGe (groupAgg (fun r => r.provider)
               strLe (sortByLe (fun a b => Date.leB b.date a.date) df)) },
      sortByLe (fun a b => Date.leB b.date a.date) df) := by
    simp only [save, _write_summary_sheets, hne, Bool.false_eq_true, if_false]
  refine ⟨_, _, hsave, rfl, sortByLe_perm _ _, ?_, ?_, ?_, ?_⟩
  · exact sortByLe_pairwise (fun a b : BillRecord => Date.leB b.date a.date)
      (fun a b => Date.leB_total b.date a.date)
      (fun a b c hab hbc => Date.leB_trans hbc hab) df
  · intro y
    obtain ⟨h1, h2⟩ := lookup_groupAgg (fun r => r.year) intLe
      (sortByLe (fun a b => Date.leB b.date a.date) df) y
    constructor
    · rintro ⟨r, hr, hy⟩
      rw [h1 ⟨r, (sortByLe_perm _ df).mem_iff.mpr hr, hy⟩,
        sumFor_perm (fun r => r.year) y (sortByLe_perm _ df),
        countFor_perm (fun r => r.year) y (sortByLe_perm _ df)]
    · intro hn
      refine h2 ?_
      rintro ⟨r, hr, hy⟩
      exact hn ⟨r, (sortByLe_perm _ df).mem_iff.mp hr, hy⟩
  · intro c
    obtain ⟨h1, h2⟩ := lookup_groupAgg (fun r => r.category) strLe
      (sortByLe (fun a b => Date.leB b.date a.date) df) c
    constructor
    · rintro ⟨r, hr, hc⟩
      rw [h1 ⟨r, (sortByLe_perm _ df).mem_iff.mpr hr, hc⟩,
        sumFor_perm (fun r => r.category) c (sortByLe_perm _ df),
        countFor_perm (fun r => r.category) c (sortByLe_perm _ df)]
    · intro hn
      refine h2 ?_
      rintro ⟨r, hr, hc⟩
      exact hn ⟨r, (sortByLe_perm _ df).mem_iff.mp hr, hc⟩
  · intro p
    obtain ⟨h1, h2⟩ := lookup_keyed_map
      (groupKeysSorted (fun r => r.provider) strLe
        (sortByLe (fun a b => Date.leB b.date a.date) df))
      (fun k => (sumFor (fun r => r.provider) k
          (sortByLe (fun a b => Date.leB b.date a.date) df),
        countFor (fun r => r.provider) k
          (sortByLe (fun a b => Date.leB b.date a.date) df)))
      (sortByLe amountGe (groupAgg (fun r => r.provider) strLe
        (sortByLe (fun a b => Date.leB b.date a.date) df)))
      (sortByLe_perm amountGe _)
      (groupKeysSorted_nodup _ _ _)
    constructor
    · rintro ⟨r, hr, hp2⟩
      rw [h1 p (mem_groupKeysSorted.mpr (List.mem_map.mpr
            ⟨r, (sortByLe_perm _ df).mem_iff.mpr hr, hp2⟩)),
        sumFor_perm (fun r => r.provider) p (sortByLe_perm _ df),
        countFor_perm (fun r => r.provider) p (sortByLe_perm _ df)]
    · intro hn
      refine h2 p ?_
      intro hc
      obtain ⟨r, hr, hp2⟩ := List.mem_map.mp (mem_groupKeysSorted.mp hc)
      exact hn ⟨r, (sortByLe_perm _ df).mem_iff.mp hr, hp2⟩

/-- C9 witness: a concrete one-record save. -/
theorem save_nonempty_spec_witness :
    ([wRow1] : List BillRecord) ≠ [] ∧
    (∃ wb df2, save [wRow1] none = (["Saved"], some wb, df2) ∧
      savedWorkbookSpec [wRow1] wb df2) :=
  ⟨List.cons_ne_nil wRow1 [], save_nonempty_spec [wRow1] none (List.cons_ne_nil wRow1 [])⟩

/-- C2 counterexample: the written `Monthly Summary` sheet has exactly the
two columns `month_name` and `amount` — the month number is used as the
sort key but is not itself a column of the written table.  On a concrete
March-2024 ledger the sheet's only row is keyed by the name "March"; the
month number 3 appears in no written column. -/
theorem export_for_taxes_monthly_cex :
    (export_for_taxes [wRow1] 2024).toOption.map
        (fun t => (t.monthlyColumns, t.monthly.map Prod.fst)) =
      some (["month_name", "amount"], ["March"]) ∧
    "month" ∉ taxMonthlyColumns :=
  ⟨rfl, by decide⟩

/-- What the `Monthly Summary` sheet of a successful tax export satisfies:
its rows are the projection (month name, summed amount) of a grouped table
`mt` keyed by (month number, month name), sorted ascending by month number;
a key occurs in `mt` exactly when some filtered record carries it, and it
maps to the summed amount of its group. -/
def monthlySummarySpec (df : List BillRecord) (year : Int)
    (t : TaxExport) : Prop :=
  ∃ mt : List ((Nat × String) × ℚ),
    t.monthlyColumns = ["month_name", "amount"] ∧
    t.monthly = mt.map (fun p => (p.1.2, p.2)) ∧
    List.Pairwise (fun p q => p.1.1 ≤ q.1.1) mt ∧
    (∀ k : Nat × String, k ∈ mt.map Prod.fst ↔
      ∃ r ∈ df.filter (fun r => r.year == year), monthKey r = k) ∧
    (∀ k : Nat × String, k ∈ mt.map Prod.fst →
      List.lookup k mt =
        some (sumFor monthKey k (df.filter fun r => r.year == year)))

/-- C2 (amended): for every successful `export_for_taxes`, the `Monthly
Summary` sheet maps, for each month with at least one filtered record, the
month name to that month's summed amount, with rows sorted ascending by
month number; the month number itself is not written as a column. -/
theorem export_for_taxes_monthly (df : List BillRecord) (year : Int)
    (t : TaxExport) (h : export_for_taxes df year = .ok t) :
    monthlySummarySpec df year t := by
  by_cases hfil : df.filter (fun r => r.year == year) = []
  · exfalso
    have hexp : export_for_taxes df year =
        .error ("No records found for year " ++ toString year) := by
      simp [export_for_taxes, hfil]
    rw [hexp] at h
    exact Except.noConfusion h
  · have hne : (df.filter fun r => r.year == year).isEmpty = false := by
      cases hx : df.filter (fun r => r.year == year) with
      | nil => exact absurd hx hfil
      | cons a l => rfl
    simp only [export_for_taxes, hne, Bool.false_eq_true, if_false] at h
    obtain rfl := (Except.ok.inj h).symm
    refine ⟨monthlySorted (sortByLe (fun a b => Date.leB a.date b.date)
      (df.filter fun r => r.year == year)), rfl, rfl, ?_, ?_, ?_⟩
    · have hpw := sortByLe_pairwise monthNumLe
        (fun p q => by
          rcases Nat.le_total p.1.1 q.1.1 with h2 | h2
          · exact Or.inl (decide_eq_true h2)
          · exact Or.inr (decide_eq_true h2))
        (fun p q s hpq hqs => decide_eq_true
          (Nat.le_trans (of_decide_eq_true hpq) (of_decide_eq_true hqs)))
        (groupSum monthKey monthPairLe (sortByLe (fun a b => Date.leB a.date b.date)
          (df.filter fun r => r.year == year)))
      exact hpw.imp fun hd => of_decide_eq_true hd
    · intro k
      constructor
      · intro hk
        have hk2 : k ∈ (groupSum monthKey monthPairLe
            (sortByLe (fun a b => Date.leB a.date b.date)
              (df.filter fun r => r.year == year))).map Prod.fst :=
          ((sortByLe_perm monthNumLe _).map Prod.fst).mem_iff.mp hk
        rw [map_fst_groupSum] at hk2
        obtain ⟨r, hr, hkr⟩ := List.mem_map.mp (mem_groupKeysSorted.mp hk2)
        exact ⟨r, (sortByLe_perm _ _).mem_iff.mp hr, hkr⟩
      · rintro ⟨r, hr, hkr⟩
        apply ((sortByLe_perm monthNumLe _).map Prod.fst).mem_iff.mpr
        rw [map_fst_groupSum]
        exact mem_groupKeysSorted.mpr (List.mem_map.mpr
          ⟨r, (sortByLe_perm _ _).mem_iff.mpr hr, hkr⟩)
    · intro k hk
      obtain ⟨h1, h2⟩ := lookup_keyed_map
        (groupKeysSorted monthKey monthPairLe
          (sortByLe (fun a b => Date.leB a.date b.date)
            (df.filter fun r => r.year == year)))
        (fun k => sumFor monthKey k
          (sortByLe (fun a b => Date.leB a.date b.date)
            (df.filter fun r => r.year == year)))
        (monthlySorted (sortByLe (fun a b => Date.leB a.date b.date)
          (df.filter fun r => r.year == year)))
        (sortByLe_perm monthNumLe _)
        (groupKeysSorted_nodup _ _ _)
      have hk2 : k ∈ groupKeysSorted monthKey monthPairLe
          (sortByLe (fun a b => Date.leB a.date b.date)
            (df.filter fun r => r.year == year)) := by
        have hmem := ((sortByLe_perm monthNumLe _).map Prod.fst).mem_iff.mp hk
        rwa [map_fst_groupSum] at hmem
      rw [h1 k hk2, sumFor_perm monthKey k (sortByLe_perm _ _)]

/-- C2 witness: the amended claim at a concrete one-record ledger. -/
theorem export_for_taxes_monthly_witness :
    export_for_taxes [wRow1] 2024 = Except.ok wTax1 ∧
    monthlySummarySpec [wRow1] 2024 wTax1 :=
  ⟨rfl, export_for_taxes_monthly [wRow1] 2024 wTax1 rfl⟩
